import Mathlib

/-!
Shallow embedding of the store/persistence layer of the MobxTodoApp repository
(`src/models/Todo.js`, `src/models/RootStore.js`).

The `Todo` model has fields `id : string`, `title : string`, `done : boolean`.
The `RootStore` model has `todos : array of Todo` and `isLoading : boolean`.
Persistence goes through an asynchronous key-value backend (AsyncStorage):
`saveTodos` serializes the snapshot of `todos` with `JSON.stringify` and writes
it under the fixed key `MOBX_TODO_APP_DATA`; `loadTodos` reads that key, and on
a truthy result parses it with `JSON.parse` and replaces `todos` wholesale.
Asynchrony is modelled by passing the backend's response as an explicit
argument; `Date.now()` is modelled as an explicit millisecond-timestamp
argument to `addTodo`.
-/

/-- One todo item, from `src/models/Todo.js`: `id : types.string`,
`title : types.string`, `done : types.boolean`. -/
structure Todo where
  id : String
  title : String
  done : Bool
deriving Repr, DecidableEq

/-- The root store's own state, from `src/models/RootStore.js`:
`todos : types.array(Todo)`, `isLoading : types.optional(types.boolean, false)`. -/
structure RootStore where
  todos : List Todo
  isLoading : Bool
deriving Repr, DecidableEq

/-- The fixed storage key `STORAGE_KEY = 'MOBX_TODO_APP_DATA'`. -/
def STORAGE_KEY : String := "MOBX_TODO_APP_DATA"

/-- View `completedCount`: `self.todos.filter(todo => todo.done).length`. -/
def completedCount (self : RootStore) : Nat :=
  (self.todos.filter (fun todo => todo.done)).length

/-- View `remainingCount`: `self.todos.length - self.completedCount`. -/
def remainingCount (self : RootStore) : Nat :=
  self.todos.length - completedCount self

/-! ## JSON serialization

`saveTodos` stores `JSON.stringify(getSnapshot(self.todos))`.  The MST snapshot
of the todos array is the plain array of `{id, title, done}` objects with keys
in model-declaration order, so the serialized blob is, e.g.,
`[{"id":"1","title":"a","done":false}]`.  `escChar` is the per-character string
escaping performed by `JSON.stringify` (ECMA-262 QuoteJSONString): `"` and `\`
are backslash-escaped, the control characters BS HT LF FF CR get two-character
escapes, the remaining control characters become `\u00xx` with lowercase hex,
and every other character is emitted verbatim. -/
def hexDigit (n : Nat) : Char :=
  if n < 10 then Char.ofNat (48 + n) else Char.ofNat (87 + n)

/-- Escaping of one character inside a string literal, as `JSON.stringify` does it. -/
def escChar (c : Char) : List Char :=
  if c = '\"' then ['\\', '\"']
  else if c = '\\' then ['\\', '\\']
  else if c = Char.ofNat 8 then ['\\', 'b']
  else if c = Char.ofNat 9 then ['\\', 't']
  else if c = Char.ofNat 10 then ['\\', 'n']
  else if c = Char.ofNat 12 then ['\\', 'f']
  else if c = Char.ofNat 13 then ['\\', 'r']
  else if c.toNat < 32 then
    ['\\', 'u', '0', '0', hexDigit (c.toNat / 16), hexDigit (c.toNat % 16)]
  else [c]

/-- Serialization of a string value as a JSON string literal. -/
def quoteJString (s : String) : List Char :=
  '\"' :: (s.data.flatMap escChar) ++ ['\"']

/-- Serialization of one snapshot object, with keys in model order: id, title, done. -/
def encodeTodo (t : Todo) : List Char :=
  "\x7b\"id\":".data ++ quoteJString t.id
    ++ ",\"title\":".data ++ quoteJString t.title
    ++ ",\"done\":".data ++ (if t.done then "true".data else "false".data)
    ++ "\x7d".data

/-- Serialization `JSON.stringify(getSnapshot(self.todos))`: the blob written by
`saveTodos`. -/
def encodeTodos (ts : List Todo) : String :=
  match ts with
  | [] => "[]"
  | t :: rest =>
    ⟨'[' :: (encodeTodo t ++ rest.flatMap (fun u => ',' :: encodeTodo u) ++ [']'])⟩

/-- Value of a hexadecimal digit accepted by `JSON.parse` in `\uXXXX` escapes. -/
def hexVal (c : Char) : Option Nat :=
  if '0' ≤ c ∧ c ≤ '9' then some (c.toNat - 48)
  else if 'a' ≤ c ∧ c ≤ 'f' then some (c.toNat - 87)
  else if 'A' ≤ c ∧ c ≤ 'F' then some (c.toNat - 55)
  else none

def pushChar (c : Char) (r : Option (List Char × List Char)) :
    Option (List Char × List Char) :=
  r.map (fun p => (c :: p.1, p.2))

/-- Parse the body of a JSON string literal (the part after the opening quote),
returning the decoded characters and the input remaining after the closing
quote; `none` on a malformed literal.  Mirrors `JSON.parse`'s string grammar:
the escapes `\" \\ \/ \b \t \n \f \r \uXXXX` are decoded, an unescaped control
character or any other escape is an error. -/
def parseJString : List Char → Option (List Char × List Char)
  | [] => none
  | c :: rest =>
    if c = '\"' then some ([], rest)
    else if c = '\\' then
      match rest with
      | [] => none
      | e :: r =>
        if e = '\"' then pushChar '\"' (parseJString r)
        else if e = '\\' then pushChar '\\' (parseJString r)
        else if e = '/' then pushChar '/' (parseJString r)
        else if e = 'b' then pushChar (Char.ofNat 8) (parseJString r)
        else if e = 't' then pushChar (Char.ofNat 9) (parseJString r)
        else if e = 'n' then pushChar (Char.ofNat 10) (parseJString r)
        else if e = 'f' then pushChar (Char.ofNat 12) (parseJString r)
        else if e = 'r' then pushChar (Char.ofNat 13) (parseJString r)
        else if e = 'u' then
          match r with
          | h1 :: h2 :: h3 :: h4 :: r4 =>
            match hexVal h1, hexVal h2, hexVal h3, hexVal h4 with
            | some a, some b, some c2, some d =>
              pushChar (Char.ofNat (((a * 16 + b) * 16 + c2) * 16 + d)) (parseJString r4)
            | _, _, _, _ => none
          | _ => none
        else none
    else if c.toNat < 32 then none
    else pushChar c (parseJString rest)

/-- Consume an expected literal sequence of characters, returning the rest. -/
def expectChars (pre cs : List Char) : Option (List Char) :=
  if cs.take pre.length = pre then some (cs.drop pre.length) else none

/-- Parse one snapshot object in the canonical serialized form
`{"id":<string>,"title":<string>,"done":<bool>}`.  This is the composition of
`JSON.parse` with the runtime type check MST performs in
`self.todos.replace(todosData)` (id and title must be strings, done a boolean),
restricted to the canonical grammar that `JSON.stringify(getSnapshot(…))`
produces; anything outside it is rejected, modelling the thrown-and-caught
error of `loadTodos`. -/
def parseTodoObj (cs : List Char) : Option (Todo × List Char) :=
  match expectChars "\x7b\"id\":\"".data cs with
  | none => none
  | some cs1 =>
    match parseJString cs1 with
    | none => none
    | some (idChars, cs2) =>
      match expectChars ",\"title\":\"".data cs2 with
      | none => none
      | some cs3 =>
        match parseJString cs3 with
        | none => none
        | some (titleChars, cs4) =>
          match expectChars ",\"done\":true\x7d".data cs4 with
          | some rest => some ({ id := ⟨idChars⟩, title := ⟨titleChars⟩, done := true }, rest)
          | none =>
            match expectChars ",\"done\":false\x7d".data cs4 with
            | some rest => some ({ id := ⟨idChars⟩, title := ⟨titleChars⟩, done := false }, rest)
            | none => none

/-- Parse the `,<obj>`-repetition tail of a serialized array, up to and
including the closing `]`.  `fuel` bounds the recursion; each step consumes at
least the separator character, so any `fuel` larger than the input length is
enough. -/
def parseTodoTail : Nat → List Char → Option (List Todo × List Char)
  | 0, _ => none
  | _ + 1, [] => none
  | fuel + 1, c :: rest =>
    if c = ']' then some ([], rest)
    else if c = ',' then
      match parseTodoObj rest with
      | none => none
      | some (t, rest1) =>
        match parseTodoTail fuel rest1 with
        | none => none
        | some (ts, rest2) => some (t :: ts, rest2)
    else none

/-- Deserialize a stored blob back into a todos list: `JSON.parse` followed by
the MST type check of `replace`, restricted to the canonical serialization
grammar (see `parseTodoObj`); `none` models the parse/replace error path. -/
def decodeTodos (s : String) : Option (List Todo) :=
  match s.data with
  | '[' :: cs =>
    if cs = [']'] then some []
    else
      match parseTodoObj cs with
      | none => none
      | some (t, cs1) =>
        match parseTodoTail (cs1.length + 1) cs1 with
        | some (ts, []) => some (t :: ts)
        | _ => none
  | _ => none

/-! ## The AsyncStorage backend

Modelled as an association list of key-value pairs with first-match lookup, the
two operations the store consumes (`getItem`/`setItem`). -/

def storageGet : List (String × String) → String → Option String
  | [], _ => none
  | (k, v) :: rest, key => if k = key then some v else storageGet rest key

def storageSet : List (String × String) → String → String → List (String × String)
  | [], key, val => [(key, val)]
  | (k, v) :: rest, key, val =>
    if k = key then (key, val) :: rest else (k, v) :: storageSet rest key val

/-! ## Store actions

Each mutating action returns the updated store together with the number of
`saveTodos` calls it scheduled (the actions fire `saveTodos` without awaiting
it).  `saveTodos` and `loadTodos` take the backend's behaviour as an explicit
argument. -/

/-- Action `addTodo(title)`: `const id = Date.now().toString(); self.todos.push({id,
title, done: false}); self.saveTodos();`.  `now` is the value of `Date.now()`
(milliseconds); the second component counts the saves scheduled. -/
def addTodo (self : RootStore) (now : Nat) (title : String) : RootStore × Nat :=
  ({ self with
      todos := self.todos ++ [{ id := toString now, title := title, done := false }] },
    1)

/-- Action `deleteTodo(id)`: `findIndex` on `todo.id === id`; if found, `splice(index,
1)` and `saveTodos()`; otherwise nothing.  The second component counts the
saves scheduled. -/
def deleteTodo (self : RootStore) (id : String) : RootStore × Nat :=
  match self.todos.findIdx? (fun todo => todo.id == id) with
  | some index => ({ self with todos := self.todos.eraseIdx index }, 1)
  | none => (self, 0)

/-- Action `Todo.toggle()` from `src/models/Todo.js` on the item at position `i`:
`self.done = !self.done` followed by `getParent(self, 2).saveTodos()`.  The
second component counts the saves scheduled. -/
def toggleAt (self : RootStore) (i : Nat) : RootStore × Nat :=
  ({ self with todos := self.todos.modify (fun t => { t with done := !t.done }) i }, 1)

/-- Action `saveTodos()`: serialize the snapshot and `AsyncStorage.setItem(STORAGE_KEY,
todosData)` inside `try … catch (error) { console.error(…) }`.  `writeOk`
models whether `setItem` resolves or rejects; either way the action returns
normally and leaves the store untouched. -/
def saveTodos (self : RootStore) (storage : List (String × String)) (writeOk : Bool) :
    RootStore × List (String × String) :=
  if writeOk then (self, storageSet storage STORAGE_KEY (encodeTodos self.todos))
  else (self, storage)

/-- Action `loadTodos()`: `isLoading = true`; `AsyncStorage.getItem(STORAGE_KEY)`; if
the result is truthy (non-null, non-empty — `if (data)`), `JSON.parse` it and
`self.todos.replace(todosData)`; any thrown error is caught and logged; the
`finally` block sets `isLoading = false` on every exit path.  `getResult`
models the backend read: `Except.error` an `getItem` rejection, `Except.ok
none` an absent key, `Except.ok (some data)` a stored string. -/
def loadTodos (self : RootStore) (getResult : Except Unit (Option String)) : RootStore :=
  match getResult with
  | .error _ => { self with isLoading := false }
  | .ok none => { self with isLoading := false }
  | .ok (some data) =>
    if data = "" then { self with isLoading := false }
    else
      match decodeTodos data with
      | none => { self with isLoading := false }
      | some ts => { todos := ts, isLoading := false }

example : encodeTodos [⟨"1", "a", false⟩] = "[\x7b\"id\":\"1\",\"title\":\"a\",\"done\":false\x7d]" := by
  decide

example : decodeTodos "[\x7b\"id\":\"1\",\"title\":\"a\",\"done\":false\x7d]" = some [⟨"1", "a", false⟩] := by
  decide

example : decodeTodos (encodeTodos [⟨"1", "a\nb", true⟩, ⟨"2", "c", false⟩]) =
    some [⟨"1", "a\nb", true⟩, ⟨"2", "c", false⟩] := by
  decide

example : decodeTodos "[]" = some [] := by decide

example : decodeTodos "nonsense" = none := by decide

/-! ## Round-trip of the serialization -/

lemma hexVal_hexDigit (n : Nat) (h : n < 16) : hexVal (hexDigit n) = some n := by
  interval_cases n <;> decide

lemma parseJString_quote (T : List Char) :
    parseJString ('\"' :: T) = some ([], T) := by
  rw [parseJString.eq_def]; simp

lemma parseJString_escQuote (T : List Char) :
    parseJString ('\\' :: '\"' :: T) = pushChar '\"' (parseJString T) := by
  rw [parseJString.eq_def]; simp

lemma parseJString_escBackslash (T : List Char) :
    parseJString ('\\' :: '\\' :: T) = pushChar '\\' (parseJString T) := by
  rw [parseJString.eq_def]; simp

lemma parseJString_escB (T : List Char) :
    parseJString ('\\' :: 'b' :: T) = pushChar (Char.ofNat 8) (parseJString T) := by
  rw [parseJString.eq_def]; simp

lemma parseJString_escT (T : List Char) :
    parseJString ('\\' :: 't' :: T) = pushChar (Char.ofNat 9) (parseJString T) := by
  rw [parseJString.eq_def]; simp

lemma parseJString_escN (T : List Char) :
    parseJString ('\\' :: 'n' :: T) = pushChar (Char.ofNat 10) (parseJString T) := by
  rw [parseJString.eq_def]; simp

lemma parseJString_escF (T : List Char) :
    parseJString ('\\' :: 'f' :: T) = pushChar (Char.ofNat 12) (parseJString T) := by
  rw [parseJString.eq_def]; simp

lemma parseJString_escR (T : List Char) :
    parseJString ('\\' :: 'r' :: T) = pushChar (Char.ofNat 13) (parseJString T) := by
  rw [parseJString.eq_def]; simp

lemma parseJString_u (a b : Nat) (ha : a < 16) (hb : b < 16) (T : List Char) :
    parseJString ('\\' :: 'u' :: '0' :: '0' :: hexDigit a :: hexDigit b :: T) =
      pushChar (Char.ofNat (a * 16 + b)) (parseJString T) := by
  have h1 : hexVal (hexDigit a) = some a := hexVal_hexDigit a ha
  have h2 : hexVal (hexDigit b) = some b := hexVal_hexDigit b hb
  have h0 : hexVal '0' = some 0 := by decide
  rw [parseJString.eq_def]
  simp [h0, h1, h2]

lemma parseJString_other (c : Char) (h1 : c ≠ '\"') (h2 : c ≠ '\\')
    (h3 : ¬ c.toNat < 32) (T : List Char) :
    parseJString (c :: T) = pushChar c (parseJString T) := by
  rw [parseJString.eq_def]
  simp [h1, h2, h3]

lemma parseJString_escChar (l rest : List Char) :
    parseJString (l.flatMap escChar ++ '\"' :: rest) = some (l, rest) := by
  induction l with
  | nil => simp [parseJString_quote]
  | cons c l ih =>
    rw [List.flatMap_cons, List.append_assoc]
    by_cases hq : c = '\"'
    · subst hq
      show parseJString ('\\' :: '\"' :: (l.flatMap escChar ++ '\"' :: rest)) = _
      rw [parseJString_escQuote, ih]; rfl
    by_cases hbs : c = '\\'
    · subst hbs
      show parseJString ('\\' :: '\\' :: (l.flatMap escChar ++ '\"' :: rest)) = _
      rw [parseJString_escBackslash, ih]; rfl
    by_cases h8 : c = Char.ofNat 8
    · subst h8
      show parseJString ('\\' :: 'b' :: (l.flatMap escChar ++ '\"' :: rest)) = _
      rw [parseJString_escB, ih]; rfl
    by_cases h9 : c = Char.ofNat 9
    · subst h9
      show parseJString ('\\' :: 't' :: (l.flatMap escChar ++ '\"' :: rest)) = _
      rw [parseJString_escT, ih]; rfl
    by_cases h10 : c = Char.ofNat 10
    · subst h10
      show parseJString ('\\' :: 'n' :: (l.flatMap escChar ++ '\"' :: rest)) = _
      rw [parseJString_escN, ih]; rfl
    by_cases h12 : c = Char.ofNat 12
    · subst h12
      show parseJString ('\\' :: 'f' :: (l.flatMap escChar ++ '\"' :: rest)) = _
      rw [parseJString_escF, ih]; rfl
    by_cases h13 : c = Char.ofNat 13
    · subst h13
      show parseJString ('\\' :: 'r' :: (l.flatMap escChar ++ '\"' :: rest)) = _
      rw [parseJString_escR, ih]; rfl
    by_cases hlow : c.toNat < 32
    · have hesc : escChar c = ['\\', 'u', '0', '0', hexDigit (c.toNat / 16), hexDigit (c.toNat % 16)] := by
        unfold escChar
        rw [if_neg hq, if_neg hbs, if_neg h8, if_neg h9, if_neg h10, if_neg h12,
          if_neg h13, if_pos hlow]
      rw [hesc]
      show parseJString ('\\' :: 'u' :: '0' :: '0' :: hexDigit (c.toNat / 16) ::
        hexDigit (c.toNat % 16) :: (l.flatMap escChar ++ '\"' :: rest)) = _
      rw [parseJString_u (c.toNat / 16) (c.toNat % 16) (by omega) (by omega), ih]
      have hval : c.toNat / 16 * 16 + c.toNat % 16 = c.toNat := by omega
      rw [hval, Char.ofNat_toNat]
      rfl
    · have hesc : escChar c = [c] := by
        unfold escChar
        rw [if_neg hq, if_neg hbs, if_neg h8, if_neg h9, if_neg h10, if_neg h12,
          if_neg h13, if_neg hlow]
      rw [hesc, List.cons_append, List.nil_append,
        parseJString_other c hq hbs hlow, ih]
      rfl

lemma expectChars_append (pre rest : List Char) :
    expectChars pre (pre ++ rest) = some rest := by
  unfold expectChars
  rw [if_pos (List.take_left pre rest), List.drop_left]

lemma expectChars_nil (cs : List Char) : expectChars [] cs = some cs := by
  simp [expectChars]

lemma expectChars_cons (c : Char) (pre cs : List Char) :
    expectChars (c :: pre) (c :: cs) = expectChars pre cs := by
  simp [expectChars, List.take_succ_cons, List.drop_succ_cons]

lemma expectChars_t_f (pre cs : List Char) :
    expectChars ('t' :: pre) ('f' :: cs) = none := by
  simp [expectChars, List.take_succ_cons]

lemma parseTodoObj_encode (t : Todo) (X : List Char) :
    parseTodoObj (encodeTodo t ++ X) = some (t, X) := by
  obtain ⟨id, title, done⟩ := t
  cases done <;>
    simp [parseTodoObj, encodeTodo, quoteJString, expectChars_cons, expectChars_nil,
      expectChars_t_f, parseJString_escChar, List.append_assoc]

lemma parseTodoTail_encode (ts : List Todo) (X : List Char) (fuel : Nat)
    (h : ts.length < fuel) :
    parseTodoTail fuel (ts.flatMap (fun u => ',' :: encodeTodo u) ++ ']' :: X) =
      some (ts, X) := by
  induction ts generalizing fuel X with
  | nil =>
    cases fuel with
    | zero => omega
    | succ fuel =>
      rw [List.flatMap_nil, List.nil_append, parseTodoTail.eq_def]
      simp
  | cons t ts ih =>
    cases fuel with
    | zero => omega
    | succ fuel =>
      have hlt : ts.length < fuel := by
        simp only [List.length_cons] at h
        omega
      rw [List.flatMap_cons]
      simp only [List.cons_append, List.append_assoc]
      rw [parseTodoTail.eq_def]
      simp [parseTodoObj_encode, ih X fuel hlt]

lemma encodeTodo_eq_cons (t : Todo) : ∃ Z, encodeTodo t = '\x7b' :: Z :=
  ⟨_, rfl⟩

lemma length_le_length_flatMapEncode (ts : List Todo) :
    ts.length ≤ (ts.flatMap (fun u => ',' :: encodeTodo u)).length := by
  induction ts with
  | nil => simp
  | cons t ts ih =>
    simp only [List.flatMap_cons, List.length_append, List.length_cons]
    omega

lemma decodeTodos_cons (cs : List Char) (hne : cs ≠ [']']) :
    decodeTodos ⟨'[' :: cs⟩ =
      match parseTodoObj cs with
      | none => none
      | some (t, cs1) =>
        match parseTodoTail (cs1.length + 1) cs1 with
        | some (ts, []) => some (t :: ts)
        | _ => none := by
  rw [decodeTodos.eq_def]
  simp [hne]

lemma decodeTodos_encodeTodos (ts : List Todo) :
    decodeTodos (encodeTodos ts) = some ts := by
  cases ts with
  | nil => decide
  | cons t rest =>
    obtain ⟨Z, hZ⟩ := encodeTodo_eq_cons t
    have hne : encodeTodo t ++ (rest.flatMap (fun u => ',' :: encodeTodo u) ++ [']']) ≠ [']'] := by
      rw [hZ]
      simp
    have hfuel : rest.length <
        (rest.flatMap (fun u => ',' :: encodeTodo u) ++ [']']).length + 1 := by
      have := length_le_length_flatMapEncode rest
      rw [List.length_append]
      simp only [List.length_singleton]
      omega
    rw [show encodeTodos (t :: rest) =
      ⟨'[' :: (encodeTodo t ++ (rest.flatMap (fun u => ',' :: encodeTodo u) ++ [']']))⟩ by
        simp only [encodeTodos, List.append_assoc]]
    rw [decodeTodos_cons _ hne]
    simp only [parseTodoObj_encode, parseTodoTail_encode rest [] _ hfuel]

/-! ## The storage model -/

lemma storageGet_storageSet (st : List (String × String)) (k v : String) :
    storageGet (storageSet st k v) k = some v := by
  induction st with
  | nil => simp [storageSet, storageGet]
  | cons p st ih =>
    obtain ⟨k1, v1⟩ := p
    by_cases h : k1 = k
    · subst h
      simp [storageSet, storageGet]
    · simp [storageSet, storageGet, h, ih]

lemma encodeTodos_ne_empty (ts : List Todo) : encodeTodos ts ≠ "" := by
  cases ts with
  | nil => decide
  | cons t rest =>
    intro hcontra
    have hd := congrArg String.data hcontra
    simp [encodeTodos] at hd

/-! ## Helper lemmas about the actions -/

lemma addTodo_todos (s : RootStore) (now : Nat) (title : String) :
    (addTodo s now title).1.todos = s.todos ++ [⟨toString now, title, false⟩] := rfl

lemma countP_not_done (l : List Todo) :
    l.countP (fun t => !t.done) = l.length - l.countP (fun t => t.done) := by
  induction l with
  | nil => rfl
  | cons t l ih =>
    have hle := List.countP_le_length (fun t => t.done) (l := l)
    cases hd : t.done <;> simp [List.countP_cons, hd, ih] <;> omega

lemma findIdx?_first (p : Todo → Bool) (l1 : List Todo) (x : Todo) (l2 : List Todo)
    (hl1 : ∀ y ∈ l1, p y = false) (hx : p x = true) :
    (l1 ++ x :: l2).findIdx? p = some l1.length := by
  induction l1 with
  | nil => simp [List.findIdx?_cons, hx]
  | cons a l1 ih =>
    have ha : p a = false := hl1 a (List.mem_cons_self a l1)
    rw [List.cons_append, List.findIdx?_cons]
    simp [ha, ih (fun y hy => hl1 y (List.mem_cons_of_mem a hy))]

lemma eraseIdx_append_length (l1 : List Todo) (x : Todo) (l2 : List Todo) :
    (l1 ++ x :: l2).eraseIdx l1.length = l1 ++ l2 := by
  induction l1 with
  | nil => rfl
  | cons a l1 ih => simp [List.eraseIdx_cons_succ, ih]

/-! ## The claims -/

/-- C1: for every store state, `saveTodos()` (serializing the current items to
a JSON blob under the fixed storage key) followed by `loadTodos()` on a fresh
store whose backend returns that blob yields an items collection equal to the
original: same ids, same titles, same done flags, in the same order. -/
theorem claim_C1_round_trip_persistence (s : RootStore)
    (storage : List (String × String)) (b : Bool) :
    (loadTodos { todos := [], isLoading := b }
      (Except.ok (storageGet (saveTodos s storage true).2 STORAGE_KEY))).todos = s.todos := by
  have hsave : (saveTodos s storage true).2 =
      storageSet storage STORAGE_KEY (encodeTodos s.todos) := rfl
  rw [hsave, storageGet_storageSet]
  simp [loadTodos, encodeTodos_ne_empty, decodeTodos_encodeTodos]

/-- C2 (code bug): `addTodo` derives the id from `Date.now().toString()`, so
two calls within the same millisecond — the claim's "immediate succession" —
produce the same id, not distinct ids: both items carry the stringified shared
timestamp. -/
theorem claim_C2_same_instant_id_collision :
    ((addTodo (addTodo { todos := [], isLoading := false } 1700000000000 "first").1
        1700000000000 "second").1.todos.map Todo.id) =
      ["1700000000000", "1700000000000"] := by
  decide

/-- C3: if `loadTodos()` encounters an absent value, an I/O failure, or
malformed (non-deserializable) data, the items collection is unchanged and
`isLoading` is `false` after the call completes. -/
theorem claim_C3_load_failure_safety (s : RootStore) (r : Except Unit (Option String))
    (h : ∀ data, r = Except.ok (some data) → data = "" ∨ decodeTodos data = none) :
    (loadTodos s r).todos = s.todos ∧ (loadTodos s r).isLoading = false := by
  cases r with
  | error e => exact ⟨rfl, rfl⟩
  | ok o =>
    cases o with
    | none => exact ⟨rfl, rfl⟩
    | some data =>
      rcases h data rfl with h0 | h0
      · subst h0
        exact ⟨rfl, rfl⟩
      · by_cases hd : data = "" <;> simp [loadTodos, hd, h0]

theorem claim_C3_witness :
    (loadTodos ⟨[⟨"1", "x", true⟩], true⟩ (Except.error ())).todos = [⟨"1", "x", true⟩] ∧
    (loadTodos ⟨[⟨"1", "x", true⟩], true⟩ (Except.error ())).isLoading = false :=
  claim_C3_load_failure_safety ⟨[⟨"1", "x", true⟩], true⟩ (Except.error ())
    (fun _ hcontra => Except.noConfusion hcontra)

/-- C4: `deleteTodo(id)` removes exactly the first item whose id matches,
keeping the remaining items in their original relative order, and schedules
exactly one save; if no item matches it is a no-op and schedules no save. -/
theorem claim_C4_deleteTodo_removes_first (s : RootStore) (id : String) :
    ((∀ t ∈ s.todos, t.id ≠ id) → deleteTodo s id = (s, 0)) ∧
    (∀ l1 x l2, s.todos = l1 ++ x :: l2 → (∀ y ∈ l1, y.id ≠ id) → x.id = id →
      (deleteTodo s id).1.todos = l1 ++ l2 ∧
      (deleteTodo s id).1.isLoading = s.isLoading ∧ (deleteTodo s id).2 = 1) := by
  constructor
  · intro hnone
    have h : s.todos.findIdx? (fun todo => todo.id == id) = none := by
      rw [List.findIdx?_eq_none_iff]
      intro x hx
      exact beq_eq_false_iff_ne.mpr (hnone x hx)
    unfold deleteTodo
    rw [h]
  · intro l1 x l2 hsplit hl1 hx
    have hfind : s.todos.findIdx? (fun todo => todo.id == id) = some l1.length := by
      rw [hsplit]
      exact findIdx?_first _ l1 x l2 (fun y hy => beq_eq_false_iff_ne.mpr (hl1 y hy))
        (beq_iff_eq.mpr hx)
    unfold deleteTodo
    rw [hfind]
    refine ⟨?_, rfl, rfl⟩
    show s.todos.eraseIdx l1.length = l1 ++ l2
    rw [hsplit]
    exact eraseIdx_append_length l1 x l2

theorem claim_C4_witness :
    (deleteTodo ⟨[⟨"a", "t1", false⟩, ⟨"b", "t2", true⟩, ⟨"c", "t3", false⟩], false⟩ "b").1.todos =
      [⟨"a", "t1", false⟩, ⟨"c", "t3", false⟩] ∧
    (deleteTodo ⟨[⟨"a", "t1", false⟩, ⟨"b", "t2", true⟩, ⟨"c", "t3", false⟩], false⟩ "b").2 = 1 ∧
    deleteTodo ⟨[⟨"a", "t1", false⟩, ⟨"b", "t2", true⟩, ⟨"c", "t3", false⟩], false⟩ "x" =
      (⟨[⟨"a", "t1", false⟩, ⟨"b", "t2", true⟩, ⟨"c", "t3", false⟩], false⟩, 0) := by
  have h2 := (claim_C4_deleteTodo_removes_first
      ⟨[⟨"a", "t1", false⟩, ⟨"b", "t2", true⟩, ⟨"c", "t3", false⟩], false⟩ "b").2
      [⟨"a", "t1", false⟩] ⟨"b", "t2", true⟩ [⟨"c", "t3", false⟩] rfl (by decide) rfl
  have h1 := (claim_C4_deleteTodo_removes_first
      ⟨[⟨"a", "t1", false⟩, ⟨"b", "t2", true⟩, ⟨"c", "t3", false⟩], false⟩ "x").1 (by decide)
  exact ⟨h2.1, h2.2.2, h1⟩

/-- C5: toggling an item once sets its done flag to the negation of its prior
value; toggling twice restores the original item (involution). -/
theorem claim_C5_toggle_involution (s : RootStore) (i : Nat) (t : Todo)
    (h : s.todos[i]? = some t) :
    (toggleAt s i).1.todos[i]? = some { t with done := !t.done } ∧
    (toggleAt (toggleAt s i).1 i).1.todos[i]? = some t := by
  have h1 : (toggleAt s i).1.todos[i]? = some { t with done := !t.done } := by
    show (s.todos.modify _ i)[i]? = _
    rw [List.getElem?_modify_eq, h]
    rfl
  refine ⟨h1, ?_⟩
  show ((toggleAt s i).1.todos.modify _ i)[i]? = some t
  rw [List.getElem?_modify_eq, h1]
  show some { t with done := !(!t.done) } = some t
  rw [Bool.not_not]

theorem claim_C5_witness :
    (toggleAt ⟨[⟨"1", "a", false⟩], false⟩ 0).1.todos[0]? = some ⟨"1", "a", true⟩ ∧
    (toggleAt (toggleAt ⟨[⟨"1", "a", false⟩], false⟩ 0).1 0).1.todos[0]? =
      some ⟨"1", "a", false⟩ :=
  claim_C5_toggle_involution ⟨[⟨"1", "a", false⟩], false⟩ 0 ⟨"1", "a", false⟩ rfl

/-- C6: `addTodo(title)` appends exactly one new item at the end of the items
collection, with the given title and `done = false`. -/
theorem claim_C6_addTodo_appends (s : RootStore) (now : Nat) (title : String) :
    (addTodo s now title).1.todos.length = s.todos.length + 1 ∧
    (addTodo s now title).1.todos.take s.todos.length = s.todos ∧
    ∃ newItem : Todo, (addTodo s now title).1.todos[s.todos.length]? = some newItem ∧
      newItem.title = title ∧ newItem.done = false := by
  refine ⟨?_, ?_, ⟨⟨toString now, title, false⟩, ?_, rfl, rfl⟩⟩
  · rw [addTodo_todos, List.length_append, List.length_singleton]
  · rw [addTodo_todos]
    exact List.take_left s.todos _
  · rw [addTodo_todos]
    exact List.getElem?_concat_length s.todos _

/-- C7: with `n` items of which `k` are done, `completedCount` equals `k` and
`remainingCount` equals `n - k`, so the two add up to `items.length`. -/
theorem claim_C7_derived_counts (s : RootStore) :
    completedCount s = s.todos.countP (fun t => t.done) ∧
    remainingCount s = s.todos.countP (fun t => !t.done) ∧
    completedCount s + remainingCount s = s.todos.length := by
  have hc : completedCount s = s.todos.countP (fun t => t.done) :=
    (List.countP_eq_length_filter _ _).symm
  have hle : completedCount s ≤ s.todos.length :=
    hc ▸ List.countP_le_length (fun t => t.done) (l := s.todos)
  refine ⟨hc, ?_, ?_⟩
  · unfold remainingCount
    rw [countP_not_done, hc]
  · unfold remainingCount
    omega

/-- C8: `saveTodos()` returns normally whether the backend write succeeds or
fails, and leaves the in-memory items and `isLoading` flag untouched. -/
theorem claim_C8_saveTodos_swallows_failure (s : RootStore)
    (storage : List (String × String)) (writeOk : Bool) :
    (saveTodos s storage writeOk).1.todos = s.todos ∧
    (saveTodos s storage writeOk).1.isLoading = s.isLoading := by
  cases writeOk <;> exact ⟨rfl, rfl⟩

/-- C9: the store performs no title validation: for every string, including
the empty and whitespace-only strings, `addTodo` appends an item carrying
exactly that title. -/
theorem claim_C9_no_title_validation (s : RootStore) (now : Nat) (title : String) :
    ∃ newItem : Todo, (addTodo s now title).1.todos = s.todos ++ [newItem] ∧
      newItem.title = title :=
  ⟨⟨toString now, title, false⟩, rfl, rfl⟩

/-- C10: toggle modifies only the done flag of the targeted item: its id and
title, every other item, the collection's length and order, and `isLoading`
are all unchanged. -/
theorem claim_C10_toggle_frame (s : RootStore) (i : Nat) :
    (toggleAt s i).1.todos.length = s.todos.length ∧
    (toggleAt s i).1.isLoading = s.isLoading ∧
    (∀ j, j ≠ i → (toggleAt s i).1.todos[j]? = s.todos[j]?) ∧
    ∀ t, s.todos[i]? = some t →
      (toggleAt s i).1.todos[i]? = some { id := t.id, title := t.title, done := !t.done } := by
  refine ⟨List.length_modify _ _ _, rfl, ?_, ?_⟩
  · intro j hj
    exact List.getElem?_modify_ne _ _ (Ne.symm hj)
  · intro t ht
    show (s.todos.modify _ i)[i]? = _
    rw [List.getElem?_modify_eq, ht]
    rfl

theorem claim_C10_witness :
    (toggleAt ⟨[⟨"1", "a", false⟩, ⟨"2", "b", true⟩], false⟩ 0).1.todos[1]? =
      ([⟨"1", "a", false⟩, ⟨"2", "b", true⟩] : List Todo)[1]? ∧
    (toggleAt ⟨[⟨"1", "a", false⟩, ⟨"2", "b", true⟩], false⟩ 0).1.todos[0]? =
      some ⟨"1", "a", true⟩ := by
  refine ⟨?_, ?_⟩
  · exact (claim_C10_toggle_frame ⟨[⟨"1", "a", false⟩, ⟨"2", "b", true⟩], false⟩ 0).2.2.1
      1 (by decide)
  · exact (claim_C10_toggle_frame ⟨[⟨"1", "a", false⟩, ⟨"2", "b", true⟩], false⟩ 0).2.2.2
      ⟨"1", "a", false⟩ rfl
